import Mathlib

/-!
Verification development for the tab-manager extension (`src/background.js`).

The repository's core is a three-stage pipeline over the host's windows and
tabs: `mergeAllWindows` (window consolidation), `removeDuplicateTabs`
(URL deduplication with a blank-tab special case) and `groupTabsByDomain`
(domain-based tab grouping), together with the pure helpers
`capitalizeFirstLetter` and `getDomainName`.

This file gives a shallow embedding of that code.  Host state (windows,
tabs, groups) is modelled explicitly; JavaScript values that may be a
string or `undefined` are modelled by `JsVal`; host-API failure channels
(`chrome.runtime.lastError`) are modelled by explicit failure flags; the
platform's URL parser (`new URL(url).hostname`) is modelled by an explicit
hostname extractor over the characters of the URL string.
-/

namespace TabManager

/-- JavaScript value that is either a string or `undefined`.  Tab URLs and
the results of out-of-range array indexing take this shape in the source. -/
inductive JsVal where
  | str : String → JsVal
  | undef : JsVal
deriving DecidableEq, Repr

/-- Browser tab: a host-assigned identifier and a URL. -/
structure Tab where
  id : Nat
  url : JsVal
deriving DecidableEq, Repr

/-- Browser window: a host-assigned identifier and an ordered tab list. -/
structure Window where
  id : Nat
  tabs : List Tab
deriving DecidableEq, Repr

/-- Snapshot of the host's open windows; `focusedId` is the id of the
window that `chrome.windows.getCurrent` returns. -/
structure BrowserState where
  windows : List Window
  focusedId : Nat
deriving DecidableEq, Repr

/-- Blank/new-tab sentinel URL, compared with `===` in the source
(`tab.url === 'chrome://newtab/'`). -/
def newTabUrl : JsVal := JsVal.str "chrome://newtab/"

/-- Tabs of every window in enumeration order: the `allTabs` array built by
`removeDuplicateTabs` (src/background.js:50-59). -/
def allTabsOf (s : BrowserState) : List Tab :=
  s.windows.flatMap (fun w => w.tabs)

/-- Tabs whose URL is the blank sentinel: the `newTabTabs` array built in
the same pass (src/background.js:51-58). -/
def newTabTabsOf (s : BrowserState) : List Tab :=
  (allTabsOf s).filter (fun t => decide (t.url = newTabUrl))

/-- Result of `chrome.windows.getCurrent`: the focused window.  In the
host there is always a focused window; the model returns `none` when the
snapshot lists no window with the focused id. -/
def currentWindow (s : BrowserState) : Option Window :=
  s.windows.find? (fun w => decide (w.id = s.focusedId))

/-- Effect of `chrome.tabs.remove(ids)` on the snapshot: every tab whose
id is listed is closed. -/
def removeTabIds (s : BrowserState) (ids : List Nat) : BrowserState :=
  { s with windows := s.windows.map (fun w =>
      { w with tabs := w.tabs.filter (fun t => decide (t.id ∉ ids)) }) }

/-- Duplicate-marking scan of the general case of `removeDuplicateTabs`
(src/background.js:74-82): `n` is `window.tabs.length`, `seen` is the
`uniqueUrls` set (most recently added first), and the result is the
`duplicateTabs` id list in push order. -/
def scanDups (n : Nat) : List Tab → List JsVal → List Nat
  | [], _ => []
  | t :: ts, seen =>
    if t.url ∈ seen ∨ (t.url = newTabUrl ∧ 1 < n) then
      t.id :: scanDups n ts seen
    else
      scanDups n ts (t.url :: seen)

/-- Marked ids for a whole window, as computed by the general case. -/
def generalMarks (w : Window) : List Nat :=
  scanDups w.tabs.length w.tabs []

/-- Condition of the blank-tab special case of `removeDuplicateTabs`
(src/background.js:61): every tab is blank (the two counts coincide) and
there is exactly one window. -/
def specialCond (s : BrowserState) : Prop :=
  (allTabsOf s).length = (newTabTabsOf s).length ∧ s.windows.length = 1

instance (s : BrowserState) : Decidable (specialCond s) := by
  unfold specialCond; infer_instance

/-- Effect of the blank-tab special case (src/background.js:62-67): all
but the first blank tab are removed. -/
def specialRemoval (s : BrowserState) : BrowserState :=
  let tabsToRemove := ((newTabTabsOf s).drop 1).map (fun t => t.id)
  if 0 < tabsToRemove.length then removeTabIds s tabsToRemove else s

/-- Effect of the general case (src/background.js:70-87): the focused
window is scanned and the marked tabs are removed. -/
def generalRemoval (s : BrowserState) : BrowserState :=
  match currentWindow s with
  | none => s
  | some w =>
    let dups := generalMarks w
    if 0 < dups.length then removeTabIds s dups else s

/-- State transformation of `removeDuplicateTabs` (src/background.js:43-90). -/
def removeDuplicateTabs (s : BrowserState) : BrowserState :=
  if specialCond s then specialRemoval s else generalRemoval s

/-- State transformation of `mergeAllWindows` (src/background.js:6-34):
every tab of every non-focused window is moved into the focused window
with `index: -1` (append), one tab at a time, windows in enumeration
order and tabs in window order. -/
def mergeAllWindows (s : BrowserState) : BrowserState :=
  match currentWindow s with
  | none => s
  | some cw =>
    let moved := s.windows.flatMap (fun w => if w.id = cw.id then [] else w.tabs)
    { s with windows := s.windows.map (fun w =>
        if w.id = cw.id then { w with tabs := w.tabs ++ moved }
        else { w with tabs := [] }) }

/-- Modelled from the spec: the Duplicate Remover's marking rule in the
spec's own words — a tab is marked for removal iff its URL was already
seen earlier in the scan (i.e. some earlier tab of the window has the same
URL), or its URL is the blank sentinel and the window holds more than one
tab.  `earlier` accumulates the tabs already scanned. -/
def specMarked (n : Nat) : List Tab → List Tab → List Nat
  | [], _ => []
  | t :: ts, earlier =>
    if (∃ p ∈ earlier, p.url = t.url) ∨ (t.url = newTabUrl ∧ 1 < n) then
      t.id :: specMarked n ts (earlier ++ [t])
    else
      specMarked n ts (earlier ++ [t])

/-! Domain extraction.  `getDomainName` (src/background.js:111-128) works
on the URL string; its string operations (`startsWith`, `new URL(...).hostname`,
the IP regex, `split`, indexing, `charAt/toUpperCase/slice`) are modelled
over the character list of the string so that every definition computes. -/

/-- Result of splitting a character list on a separator character, the
way JavaScript `String.prototype.split` does: `n` separators yield
`n + 1` (possibly empty) fields. -/
def splitOnChar (sep : Char) : List Char → List (List Char)
  | [] => [[]]
  | c :: cs =>
    match splitOnChar sep cs with
    | [] => [[]]
    | f :: fs => if c = sep then [] :: f :: fs else (c :: f) :: fs

/-- Splitting a character list at the first occurrence of a pattern:
returns the part before the match and the part after it, or `none` when
the pattern does not occur. -/
def breakOnSeq (pat : List Char) : List Char → Option (List Char × List Char)
  | [] => if pat.isEmpty then some ([], []) else none
  | c :: cs =>
    if pat.isPrefixOf (c :: cs) then some ([], (c :: cs).drop pat.length)
    else
      match breakOnSeq pat cs with
      | some (pre, post) => some (c :: pre, post)
      | none => none

/-- Model of the platform URL parser's hostname accessor
(`new URL(url).hostname`), simplified to the URL shapes the extension
meets: the text between `"://"` and the next `/`, `?` or `#`, with any
userinfo (up to `@`) and port (after `:`) stripped, lowercased.  `none`
models the `URL` constructor throwing on an unparseable URL. -/
def hostnameOf (url : List Char) : Option (List Char) :=
  match breakOnSeq [':', '/', '/'] url with
  | none => none
  | some (_scheme, rest) =>
    let authority := rest.takeWhile (fun c => !(c = '/' || c = '?' || c = '#'))
    let hostPort := (splitOnChar '@' authority).getLastD []
    let host := (splitOnChar ':' hostPort).headD []
    if host.isEmpty then none else some (host.map Char.toLower)

/-- Test of the IP regex `/^\d{1,3}(\.\d{1,3}){3}$/`
(src/background.js:120): exactly four dot-separated groups of one to
three decimal digits. -/
def isIpAddress (host : List Char) : Bool :=
  let parts := splitOnChar '.' host
  parts.length == 4 &&
    parts.all (fun p => decide (1 ≤ p.length) && decide (p.length ≤ 3) && p.all Char.isDigit)

/-- JavaScript array indexing with a possibly negative index:
`parts[i]` is `undefined` (here `none`) when `i` is out of range. -/
def jsIndex (l : List (List Char)) (i : Int) : Option (List Char) :=
  if h : 0 ≤ i ∧ i.toNat < l.length then some (l.get ⟨i.toNat, h.2⟩) else none

/-- Fixed token set of generic second-level domains (src/background.js:123). -/
def secondLevelDomains : List (List Char) :=
  ["co".data, "com".data, "gov".data, "net".data, "edu".data, "org".data]

/-- Embedding of `capitalizeFirstLetter` (src/background.js:97-103):
`string.charAt(0).toUpperCase() + string.slice(1)` for a string, and the
`catch` branch returns a non-string input (here `none`) unchanged,
because `charAt` throws on `undefined`. -/
def capitalizeFirstLetter : Option (List Char) → Option (List Char)
  | some [] => some []
  | some (c :: cs) => some (c.toUpper :: cs)
  | none => none

/-- Label selection of `getDomainName` after hostname extraction
(src/background.js:120-127): IP hostnames pass through; otherwise the
hostname is split on `.` and the label two or three segments from the end
is selected and capitalized. -/
def domainFromHostname (host : List Char) : Option (List Char) :=
  if isIpAddress host then some host
  else
    let parts := splitOnChar '.' host
    let sld := jsIndex parts ((parts.length : Int) - 2)
    let selected :=
      if (match sld with
          | some p => secondLevelDomains.contains p
          | none => false) then
        jsIndex parts ((parts.length : Int) - 3)
      else
        jsIndex parts ((parts.length : Int) - 2)
    capitalizeFirstLetter selected

instance {ε α : Type} [DecidableEq ε] [DecidableEq α] : DecidableEq (Except ε α) := fun x y =>
  match x, y with
  | Except.ok a, Except.ok b =>
    if h : a = b then isTrue (by rw [h]) else isFalse (by simp [h])
  | Except.error a, Except.error b =>
    if h : a = b then isTrue (by rw [h]) else isFalse (by simp [h])
  | Except.ok _, Except.error _ => isFalse (by simp)
  | Except.error _, Except.ok _ => isFalse (by simp)

/-- Embedding of `getDomainName` (src/background.js:111-128).  A
non-string argument throws `'Invalid URL'`; a `chrome://` URL yields the
fixed label `"Chrome"`; otherwise the hostname is parsed (the parser
throwing is an `Except.error`) and the label is selected from it.  The
`Option` in the result models that the selected label may be the
JavaScript value `undefined`. -/
def getDomainName : JsVal → Except String (Option (List Char))
  | JsVal.undef => Except.error "Invalid URL"
  | JsVal.str url =>
    if "chrome://".data.isPrefixOf url.data then Except.ok (some "Chrome".data)
    else
      match hostnameOf url.data with
      | none => Except.error "Failed to construct URL"
      | some host => Except.ok (domainFromHostname host)

/-! Domain grouping.  `groupTabsByDomain` (src/background.js:136-191)
buckets the focused window's tab ids by domain label in a plain object,
then per bucket either creates and titles a group (two or more tabs) or
ungroups (exactly one tab).  Group membership and titles live in the
host; they are modelled by `GroupState`.  Every host call can fail
through `chrome.runtime.lastError`; `GHost` says which calls fail. -/

/-- Object key a bucket label becomes: the label itself, or the string
`"undefined"` when the label is the JavaScript value `undefined`
(property keys are strings, so `tabsByDomain[undefined]` uses the key
`"undefined"`). -/
def keyStr : Option (List Char) → List Char
  | some s => s
  | none => "undefined".data

/-- Bucket key of a tab: its domain label as an object key, or the error
`getDomainName` throws. -/
def tabKey (t : Tab) : Except String (List Char) :=
  match getDomainName t.url with
  | Except.ok d => Except.ok (keyStr d)
  | Except.error e => Except.error e

/-- Insertion of one tab id into the bucket map (`if (!tabsByDomain[domain])
tabsByDomain[domain] = []; tabsByDomain[domain].push(tab.id)`,
src/background.js:149-152), as an insertion-ordered association list. -/
def addBucket : List (List Char × List Nat) → List Char → Nat → List (List Char × List Nat)
  | [], k, tid => [(k, [tid])]
  | (k', tids) :: rest, k, tid =>
    if k' = k then (k', tids ++ [tid]) :: rest
    else (k', tids) :: addBucket rest k tid

/-- Bucket map of a tab list (the `windows.tabs.forEach` scan,
src/background.js:146-153); an `Except.error` models `getDomainName`
throwing part-way through the scan, which aborts the whole scan. -/
def bucketsOf (acc : List (List Char × List Nat)) : List Tab → Except String (List (List Char × List Nat))
  | [] => Except.ok acc
  | t :: ts =>
    match tabKey t with
    | Except.error e => Except.error e
    | Except.ok k => bucketsOf (addBucket acc k t.id) ts

/-- Value stored under a key in the bucket map (`[]` when absent). -/
def bucketGet (bs : List (List Char × List Nat)) (k : List Char) : List Nat :=
  match bs.find? (fun p => decide (p.1 = k)) with
  | some p => p.2
  | none => []

/-- Host-side grouping state: existing groups (id and title, `none` while
untitled) and the tab-to-group assignment. -/
structure GroupState where
  groups : List (Nat × Option (List Char))
  tabAssign : List (Nat × Nat)
deriving DecidableEq, Repr

/-- Effect of `chrome.tabs.group({tabIds, createProperties})`: a fresh
group with id `n` and no title is created and the listed tabs are moved
into it (leaving any group they were in). -/
def tabsGroup (gs : GroupState) (tids : List Nat) (n : Nat) : GroupState :=
  { groups := gs.groups ++ [(n, none)],
    tabAssign := gs.tabAssign.filter (fun p => decide (p.1 ∉ tids)) ++ tids.map (fun t => (t, n)) }

/-- Effect of `chrome.tabGroups.update(groupId, {title})`. -/
def tabGroupsUpdate (gs : GroupState) (gid : Nat) (title : List Char) : GroupState :=
  { gs with groups := gs.groups.map (fun p => if p.1 = gid then (p.1, some title) else p) }

/-- Effect of `chrome.tabs.ungroup(tabIds)`. -/
def tabsUngroup (gs : GroupState) (tids : List Nat) : GroupState :=
  { gs with tabAssign := gs.tabAssign.filter (fun p => decide (p.1 ∉ tids)) }

/-- Failure behaviour of the host calls made by `groupTabsByDomain`:
whether `chrome.windows.getCurrent` reports `lastError`, and whether the
group / title / ungroup call for a given bucket key does. -/
structure GHost where
  getCurrentFails : Bool
  groupFails : List Char → Bool
  updateFails : List Char → Bool
  ungroupFails : List Char → Bool

/-- Host behaviour in which no call fails. -/
def noFailGH : GHost :=
  { getCurrentFails := false
    groupFails := fun _ => false
    updateFails := fun _ => false
    ungroupFails := fun _ => false }

/-- Per-bucket loop of `groupTabsByDomain` (src/background.js:154-187):
buckets with two or more tabs are grouped and titled (sequentially, the
freshly created id `n` feeding the title call), singleton buckets are
ungrouped.  An error carries the grouping state already reached, since
the host keeps the effects of completed calls. -/
def processBuckets (hb : GHost) : GroupState → Nat → List (List Char × List Nat) → Except (String × GroupState) GroupState
  | gs, _, [] => Except.ok gs
  | gs, n, (k, tids) :: rest =>
    if 1 < tids.length then
      if hb.groupFails k then Except.error ("tabs.group failed", gs)
      else
        let gs1 := tabsGroup gs tids n
        if hb.updateFails k then Except.error ("tabGroups.update failed", gs1)
        else processBuckets hb (tabGroupsUpdate gs1 n k) (n + 1) rest
    else
      if hb.ungroupFails k then Except.error ("tabs.ungroup failed", gs)
      else processBuckets hb (tabsUngroup gs tids) n rest

/-- Body of the `try` block of `groupTabsByDomain` (src/background.js:137-187):
read the focused window, bucket its tabs by domain, process the buckets.
`n0` is the next group id the host will assign.  An error carries the
grouping state reached when it was raised. -/
def groupInner (s : BrowserState) (gs : GroupState) (n0 : Nat) (hb : GHost) : Except (String × GroupState) GroupState :=
  if hb.getCurrentFails then Except.error ("windows.getCurrent failed", gs)
  else
    match currentWindow s with
    | none => Except.error ("no current window", gs)
    | some w =>
      match bucketsOf [] w.tabs with
      | Except.error e => Except.error (e, gs)
      | Except.ok bs => processBuckets hb gs n0 bs

/-- Embedding of `groupTabsByDomain` (src/background.js:136-191): the
whole body runs inside `try`/`catch`; the `catch` logs the error and the
function resolves normally with whatever grouping state was reached. -/
def groupTabsByDomain (s : BrowserState) (gs : GroupState) (n0 : Nat) (hb : GHost) : Except String GroupState :=
  match groupInner s gs n0 hb with
  | Except.ok g => Except.ok g
  | Except.error (_e, g) => Except.ok g

/-! Resolution behaviour of `removeDuplicateTabs`.  The function wires
`chrome.runtime.lastError` checks after `getAll` and `getCurrent`
(src/background.js:46-48, 71-73) but issues `chrome.tabs.remove` with no
callback and no check (src/background.js:63-66, 83-85), so a failing
removal cannot reject the promise.  `DHost` says which host calls fail. -/

/-- Failure behaviour of the host calls of `removeDuplicateTabs`. -/
structure DHost where
  getAllFails : Bool
  getCurrentFails : Bool
  removeFails : Bool
deriving DecidableEq, Repr

/-- Resolution result of `removeDuplicateTabs` (src/background.js:43-90):
`Except.error` is `reject(chrome.runtime.lastError)`, `Except.ok ()` is
`resolve()`.  `hb.removeFails` is deliberately never consulted — the
source calls `chrome.tabs.remove` without a callback, so its last-error
status is never checked on either path. -/
def removeDuplicateTabsRes (s : BrowserState) (hb : DHost) : Except String Unit :=
  if hb.getAllFails then Except.error "windows.getAll failed"
  else if specialCond s then Except.ok ()
  else if hb.getCurrentFails then Except.error "windows.getCurrent failed"
  else Except.ok ()

/-! Theorems about the domain extractor (claims C3, C9, C10). -/

/-- Unfolding of `getDomainName` on a non-internal URL whose hostname
parses. -/
theorem getDomainName_of_hostname {url : String} {host : List Char}
    (hpre : "chrome://".data.isPrefixOf url.data = false)
    (hhost : hostnameOf url.data = some host) :
    getDomainName (JsVal.str url) = Except.ok (domainFromHostname host) := by
  simp only [getDomainName, hpre, Bool.false_eq_true, if_false, hhost]

/-- C3: on every string URL whose hostname parses, is not a dotted-quad
IP and whose scheme is not `chrome://`, `getDomainName` splits the
hostname on `.`, picks the label three segments from the end when the
second-to-last label is one of co/com/gov/net/edu/org and the label two
segments from the end otherwise, and capitalizes it; the result depends
only on the hostname; `domainOf("https://shop.example.co.uk") =
"Example"` and `domainOf("https://mail.example.com/x") =
domainOf("https://example.com/y") = "Example"`. -/
theorem C3_domain_label_selection :
    (∀ url host p, "chrome://".data.isPrefixOf url.data = false →
      hostnameOf url.data = some host → isIpAddress host = false →
      jsIndex (splitOnChar '.' host) (((splitOnChar '.' host).length : Int) - 2) = some p →
      p ∈ secondLevelDomains →
      getDomainName (JsVal.str url) =
        Except.ok (capitalizeFirstLetter
          (jsIndex (splitOnChar '.' host) (((splitOnChar '.' host).length : Int) - 3)))) ∧
    (∀ url host, "chrome://".data.isPrefixOf url.data = false →
      hostnameOf url.data = some host → isIpAddress host = false →
      (∀ p, jsIndex (splitOnChar '.' host) (((splitOnChar '.' host).length : Int) - 2) = some p →
        p ∉ secondLevelDomains) →
      getDomainName (JsVal.str url) =
        Except.ok (capitalizeFirstLetter
          (jsIndex (splitOnChar '.' host) (((splitOnChar '.' host).length : Int) - 2)))) ∧
    (∀ u1 u2 : String, "chrome://".data.isPrefixOf u1.data = false →
      "chrome://".data.isPrefixOf u2.data = false →
      hostnameOf u1.data = hostnameOf u2.data →
      getDomainName (JsVal.str u1) = getDomainName (JsVal.str u2)) ∧
    getDomainName (JsVal.str "https://shop.example.co.uk") = Except.ok (some "Example".data) ∧
    getDomainName (JsVal.str "https://mail.example.com/x") = Except.ok (some "Example".data) ∧
    getDomainName (JsVal.str "https://example.com/y") = Except.ok (some "Example".data) := by
  refine ⟨?_, ?_, ?_, by decide, by decide, by decide⟩
  · intro url host p hpre hhost hip hidx hmem
    rw [getDomainName_of_hostname hpre hhost]
    unfold domainFromHostname
    rw [hip]
    simp [hidx, hmem]
  · intro url host hpre hhost hip hnot
    rw [getDomainName_of_hostname hpre hhost]
    unfold domainFromHostname
    rw [hip]
    simp only [Bool.false_eq_true, if_false]
    cases hidx : jsIndex (splitOnChar '.' host) (((splitOnChar '.' host).length : Int) - 2) with
    | none => simp [hidx]
    | some p => simp [hidx, hnot p hidx]
  · intro u1 u2 h1 h2 hh
    simp only [getDomainName, h1, h2, Bool.false_eq_true, if_false]
    rw [hh]

/-- Witness for C3 at concrete URLs: the co-rule branch at
`shop.example.co.uk`, the plain branch at `mail.example.com`, and
determinism between two URLs sharing the hostname `example.com`. -/
theorem C3_witness :
    getDomainName (JsVal.str "https://shop.example.co.uk") =
      Except.ok (capitalizeFirstLetter
        (jsIndex (splitOnChar '.' "shop.example.co.uk".data)
          (((splitOnChar '.' "shop.example.co.uk".data).length : Int) - 3))) ∧
    getDomainName (JsVal.str "https://mail.example.com/x") =
      Except.ok (capitalizeFirstLetter
        (jsIndex (splitOnChar '.' "mail.example.com".data)
          (((splitOnChar '.' "mail.example.com".data).length : Int) - 2))) ∧
    getDomainName (JsVal.str "https://mail.example.com/x") =
      getDomainName (JsVal.str "https://mail.example.com/y") :=
  ⟨C3_domain_label_selection.1 "https://shop.example.co.uk" "shop.example.co.uk".data
      "co".data (by decide) (by decide) (by decide) (by decide) (by decide),
   C3_domain_label_selection.2.1 "https://mail.example.com/x" "mail.example.com".data
      (by decide) (by decide) (by decide) (by decide),
   C3_domain_label_selection.2.2.1 "https://mail.example.com/x" "https://mail.example.com/y"
      (by decide) (by decide) (by decide)⟩

/-- Counterexample to C9 as stated: `"chrome://192.168.1.1/"` is a URL
whose parsed hostname is a bare dotted-quad address, yet `getDomainName`
returns the fixed label `"Chrome"`, not the hostname — the internal-scheme
check fires before the hostname is ever parsed. -/
theorem C9_counterexample :
    hostnameOf "chrome://192.168.1.1/".data = some "192.168.1.1".data ∧
    isIpAddress "192.168.1.1".data = true ∧
    getDomainName (JsVal.str "chrome://192.168.1.1/") = Except.ok (some "Chrome".data) ∧
    Except.ok (some "Chrome".data) ≠
      (Except.ok (some "192.168.1.1".data) : Except String (Option (List Char))) := by
  refine ⟨by decide, by decide, by decide, by decide⟩

/-- C9 (amended to exclude the internal `chrome://` scheme): on every
string URL that does not use the internal scheme and whose parsed
hostname is a bare dotted-quad IPv4-style address, `getDomainName`
returns the hostname unchanged — no capitalization, no label splitting;
in particular `domainOf("http://192.168.1.1:8080/") = "192.168.1.1"`. -/
theorem C9_ip_passthrough :
    (∀ url host, "chrome://".data.isPrefixOf url.data = false →
      hostnameOf url.data = some host → isIpAddress host = true →
      getDomainName (JsVal.str url) = Except.ok (some host)) ∧
    getDomainName (JsVal.str "http://192.168.1.1:8080/") =
      Except.ok (some "192.168.1.1".data) := by
  refine ⟨?_, by decide⟩
  intro url host hpre hhost hip
  rw [getDomainName_of_hostname hpre hhost]
  unfold domainFromHostname
  rw [hip]
  simp

/-- Witness for C9 (amended) at `http://192.168.1.1:8080/`. -/
theorem C9_witness :
    getDomainName (JsVal.str "http://192.168.1.1:8080/") =
      Except.ok (some "192.168.1.1".data) :=
  C9_ip_passthrough.1 "http://192.168.1.1:8080/" "192.168.1.1".data
    (by decide) (by decide) (by decide)

/-- C10: on every parseable non-internal URL whose hostname has too few
dot-separated labels to index the selected position, `getDomainName`
neither raises nor returns a label: the selected index is out of range
(`undefined`), `capitalizeFirstLetter` returns that value unchanged via
its failure handler, and the result is `undefined`; every tab carrying
such a URL gets the single bucket key `"undefined"` in the Grouper.
Concretely `http://localhost/` (one label) and `http://co.uk/` (the
co-rule selects three segments from the end of two). -/
theorem C10_short_hostname_undefined :
    (∀ url host, "chrome://".data.isPrefixOf url.data = false →
      hostnameOf url.data = some host → isIpAddress host = false →
      (if (match jsIndex (splitOnChar '.' host) (((splitOnChar '.' host).length : Int) - 2) with
           | some p => secondLevelDomains.contains p
           | none => false) then
         jsIndex (splitOnChar '.' host) (((splitOnChar '.' host).length : Int) - 3)
       else
         jsIndex (splitOnChar '.' host) (((splitOnChar '.' host).length : Int) - 2)) = none →
      getDomainName (JsVal.str url) = Except.ok none) ∧
    capitalizeFirstLetter none = none ∧
    (∀ t : Tab, getDomainName t.url = Except.ok none → tabKey t = Except.ok "undefined".data) ∧
    getDomainName (JsVal.str "http://localhost/") = Except.ok none ∧
    getDomainName (JsVal.str "http://co.uk/") = Except.ok none := by
  refine ⟨?_, rfl, ?_, by decide, by decide⟩
  · intro url host hpre hhost hip hsel
    rw [getDomainName_of_hostname hpre hhost]
    unfold domainFromHostname
    rw [hip]
    simp only [Bool.false_eq_true, if_false]
    rw [hsel]
    rfl
  · intro t ht
    unfold tabKey
    rw [ht]
    rfl

/-- Witness for C10 at `http://localhost/`: its single-label hostname
selects an out-of-range index, and a tab at that URL gets bucket key
`"undefined"`. -/
theorem C10_witness :
    getDomainName (JsVal.str "http://localhost/") = Except.ok none ∧
    tabKey ⟨7, JsVal.str "http://localhost/"⟩ = Except.ok "undefined".data :=
  ⟨C10_short_hostname_undefined.1 "http://localhost/" "localhost".data
      (by decide) (by decide) (by decide) (by decide),
   C10_short_hostname_undefined.2.2.1 ⟨7, JsVal.str "http://localhost/"⟩
      (C10_short_hostname_undefined.1 "http://localhost/" "localhost".data
        (by decide) (by decide) (by decide) (by decide))⟩

/-! Theorems about failure propagation (claims C7, C8). -/

/-- Concrete window with a duplicate URL, used to exercise the removal
call of `removeDuplicateTabs`. -/
def dupWindow : Window :=
  ⟨1, [⟨1, JsVal.str "https://example.com/"⟩, ⟨2, JsVal.str "https://example.com/"⟩]⟩

/-- Concrete state holding `dupWindow` as the focused window. -/
def dupState : BrowserState := ⟨[dupWindow], 1⟩

/-- Counterexample to C8 as stated: on a focused window with a duplicate
tab the general case issues a batched removal (`generalMarks` is
non-empty and the special case does not apply), the host's removal call
fails (`removeFails = true`), and yet `removeDuplicateTabs` resolves
(`Except.ok ()`) instead of rejecting — the source never checks
`chrome.runtime.lastError` after `chrome.tabs.remove`. -/
theorem C8_counterexample :
    (⟨false, false, true⟩ : DHost).removeFails = true ∧
    ¬ specialCond dupState ∧
    currentWindow dupState = some dupWindow ∧
    generalMarks dupWindow = [2] ∧
    removeDuplicateTabsRes dupState ⟨false, false, true⟩ = Except.ok () := by
  refine ⟨rfl, by decide, by decide, by decide, by decide⟩

/-- C8 (amended): the last-error status of the batched removal call is
never checked, so a host error there cannot reject the stage:
`removeDuplicateTabs` rejects exactly when `getAll` or `getCurrent`
reports an error, and resolves whenever both succeed, whatever the
removal call does. -/
theorem C8_removal_error_unchecked :
    ∀ (s : BrowserState) (hb : DHost),
      hb.getAllFails = false → hb.getCurrentFails = false →
      removeDuplicateTabsRes s hb = Except.ok () := by
  intro s hb h1 h2
  unfold removeDuplicateTabsRes
  rw [h1]
  by_cases hc : specialCond s
  · simp [hc]
  · simp [hc, h2]

/-- Witness for C8 (amended): the counterexample input itself — removal
fails, the other calls succeed, the stage resolves. -/
theorem C8_witness :
    removeDuplicateTabsRes dupState ⟨false, false, true⟩ = Except.ok () :=
  C8_removal_error_unchecked dupState ⟨false, false, true⟩ rfl rfl

/-- C7: `groupTabsByDomain` never propagates an error — for every
snapshot, initial grouping state, fresh-group counter and host failure
behaviour it resolves with some grouping state; when the window read
fails the state reached is the untouched initial one; a non-string tab
URL (the `getDomainName` throw) is likewise caught, resolving with the
initial state. -/
theorem C7_grouper_absorbs_errors :
    (∀ (s : BrowserState) (gs : GroupState) (n0 : Nat) (hb : GHost),
      ∃ g, groupTabsByDomain s gs n0 hb = Except.ok g) ∧
    (∀ (s : BrowserState) (gs : GroupState) (n0 : Nat) (hb : GHost),
      hb.getCurrentFails = true →
      groupTabsByDomain s gs n0 hb = Except.ok gs) ∧
    (∀ (gs : GroupState) (n0 : Nat) (hb : GHost) (w : Window) (s : BrowserState),
      hb.getCurrentFails = false → currentWindow s = some w →
      JsVal.undef ∈ w.tabs.map (fun t => t.url) →
      ∃ e, bucketsOf [] w.tabs = Except.error e ∧
        groupTabsByDomain s gs n0 hb = Except.ok gs) := by
  refine ⟨?_, ?_, ?_⟩
  · intro s gs n0 hb
    unfold groupTabsByDomain
    cases groupInner s gs n0 hb with
    | ok g => exact ⟨g, rfl⟩
    | error p => exact ⟨p.2, rfl⟩
  · intro s gs n0 hb h
    unfold groupTabsByDomain groupInner
    rw [h]
    simp
  · intro gs n0 hb w s hcur hw hundef
    have hbad : ∀ (acc : List (List Char × List Nat)) (ts : List Tab),
        JsVal.undef ∈ ts.map (fun t => t.url) →
        ∃ e, bucketsOf acc ts = Except.error e := by
      intro acc ts
      induction ts generalizing acc with
      | nil => intro h; simp at h
      | cons t ts ih =>
        intro h
        cases hk : tabKey t with
        | error e => exact ⟨e, by unfold bucketsOf; rw [hk]⟩
        | ok k =>
          have hne : t.url ≠ JsVal.undef := by
            intro hu
            have hx : tabKey t = Except.error "Invalid URL" := by
              unfold tabKey
              rw [hu]
              rfl
            rw [hx] at hk
            exact absurd hk (by simp)
          have htail : JsVal.undef ∈ ts.map (fun t => t.url) := by
            rcases List.mem_map.mp h with ⟨t2, ht2, hurl2⟩
            rcases List.mem_cons.mp ht2 with h2 | h2
            · exact absurd (h2 ▸ hurl2) hne
            · exact List.mem_map.mpr ⟨t2, h2, hurl2⟩
          rcases ih (addBucket acc k t.id) htail with ⟨e, he⟩
          exact ⟨e, by unfold bucketsOf; rw [hk]; exact he⟩
    rcases hbad [] w.tabs hundef with ⟨e, he⟩
    refine ⟨e, he, ?_⟩
    unfold groupTabsByDomain groupInner
    simp [hcur, hw, he]

/-- Witness for C7 at concrete inputs: a failing window read resolves
with the untouched initial state, and a window holding a
non-string-URL tab aborts bucketing yet resolves with the initial
state. -/
theorem C7_witness :
    groupTabsByDomain ⟨[⟨1, []⟩], 1⟩ ⟨[], []⟩ 0
        ⟨true, fun _ => false, fun _ => false, fun _ => false⟩ =
      Except.ok ⟨[], []⟩ ∧
    (∃ e, bucketsOf [] [⟨1, JsVal.undef⟩] = Except.error e ∧
      groupTabsByDomain ⟨[⟨1, [⟨1, JsVal.undef⟩]⟩], 1⟩ ⟨[], []⟩ 0 noFailGH =
        Except.ok ⟨[], []⟩) :=
  ⟨C7_grouper_absorbs_errors.2.1 ⟨[⟨1, []⟩], 1⟩ ⟨[], []⟩ 0
      ⟨true, fun _ => false, fun _ => false, fun _ => false⟩ rfl,
   C7_grouper_absorbs_errors.2.2 ⟨[], []⟩ 0 noFailGH ⟨1, [⟨1, JsVal.undef⟩]⟩
      ⟨[⟨1, [⟨1, JsVal.undef⟩]⟩], 1⟩ rfl (by decide) (by decide)⟩

/-! Theorems about the Duplicate Remover's marking rule (claim C1). -/

/-- Invariant tying the `uniqueUrls` set of the source's scan to the list
of tabs already scanned: a URL is in the set iff some earlier tab
carries it and it was not the blank sentinel in a multi-tab window
(blank URLs are never added to the set in that case). -/
theorem scanDups_eq_specMarked (n : Nat) :
    ∀ (ts : List Tab) (seen : List JsVal) (earlier : List Tab),
      (∀ u : JsVal, u ∈ seen ↔ ((∃ p ∈ earlier, p.url = u) ∧ ¬(u = newTabUrl ∧ 1 < n))) →
      scanDups n ts seen = specMarked n ts earlier := by
  intro ts
  induction ts with
  | nil => intro seen earlier _; rfl
  | cons t ts ih =>
    intro seen earlier hinv
    have hcond : (t.url ∈ seen ∨ (t.url = newTabUrl ∧ 1 < n)) ↔
        ((∃ p ∈ earlier, p.url = t.url) ∨ (t.url = newTabUrl ∧ 1 < n)) := by
      constructor
      · rintro (h | h)
        · exact Or.inl ((hinv t.url).mp h).1
        · exact Or.inr h
      · rintro (h | h)
        · by_cases hb : t.url = newTabUrl ∧ 1 < n
          · exact Or.inr hb
          · exact Or.inl ((hinv t.url).mpr ⟨h, hb⟩)
        · exact Or.inr h
    unfold scanDups specMarked
    by_cases hc : t.url ∈ seen ∨ (t.url = newTabUrl ∧ 1 < n)
    · rw [if_pos hc, if_pos (hcond.mp hc)]
      congr 1
      apply ih
      intro u
      constructor
      · intro hu
        rcases (hinv u).mp hu with ⟨⟨p, hp, hpu⟩, hb⟩
        exact ⟨⟨p, List.mem_append_left _ hp, hpu⟩, hb⟩
      · rintro ⟨⟨p, hp, hpu⟩, hb⟩
        rcases List.mem_append.mp hp with hp1 | hp1
        · exact (hinv u).mpr ⟨⟨p, hp1, hpu⟩, hb⟩
        · have hpt : p = t := by simpa using hp1
          subst hpt
          subst hpu
          rcases hc with h | h
          · exact h
          · exact absurd h hb
    · rw [if_neg hc, if_neg (fun h => hc (hcond.mpr h))]
      apply ih
      intro u
      constructor
      · intro hu
        rcases List.mem_cons.mp hu with hu1 | hu1
        · subst hu1
          exact ⟨⟨t, List.mem_append_right _ (by simp), rfl⟩,
            fun hb => hc (Or.inr hb)⟩
        · rcases (hinv u).mp hu1 with ⟨⟨p, hp, hpu⟩, hb⟩
          exact ⟨⟨p, List.mem_append_left _ hp, hpu⟩, hb⟩
      · rintro ⟨⟨p, hp, hpu⟩, hb⟩
        rcases List.mem_append.mp hp with hp1 | hp1
        · exact List.mem_cons_of_mem _ ((hinv u).mpr ⟨⟨p, hp1, hpu⟩, hb⟩)
        · have hpt : p = t := by simpa using hp1
          subst hpt
          subst hpu
          exact List.mem_cons_self _ _

/-- URLs for the mixed-duplicate scenario of the spec. -/
def urlA : JsVal := JsVal.str "https://a.example.com/"

/-- Second distinct URL of the scenario. -/
def urlB : JsVal := JsVal.str "https://b.example.net/"

/-- Third distinct URL of the scenario. -/
def urlC : JsVal := JsVal.str "https://c.example.org/"

/-- Focused window with tab URLs `[A, B, A, blank, C, B]`. -/
def mixedWindow : Window :=
  ⟨1, [⟨1, urlA⟩, ⟨2, urlB⟩, ⟨3, urlA⟩, ⟨4, newTabUrl⟩, ⟨5, urlC⟩, ⟨6, urlB⟩]⟩

/-- Snapshot holding only `mixedWindow`, focused. -/
def mixedState : BrowserState := ⟨[mixedWindow], 1⟩

/-- C1: the general-case scan marks a tab for removal iff its URL was
already seen earlier in the scan or it is the blank sentinel in a window
of more than one tab (`scanDups`, from the code, coincides with
`specMarked`, the rule in the spec's words, on every window tab list);
and the window `[A, B, A, blank, C, B]` ends as `[A, B, C]` in order. -/
theorem C1_marking_rule :
    (∀ (n : Nat) (tabs : List Tab), scanDups n tabs [] = specMarked n tabs []) ∧
    (removeDuplicateTabs mixedState).windows.map (fun w => w.tabs.map (fun t => t.url)) =
      [[urlA, urlB, urlC]] := by
  constructor
  · intro n tabs
    apply scanDups_eq_specMarked
    intro u
    simp
  · decide

/-! Theorems about the Window Consolidator (claim C2). -/

/-- Under an id-preserving rewrite of every window, `find?` by id
commutes with the rewrite. -/
theorem find_map_of_preserves_id (l : List Window) (f : Window → Window) (fid : Nat)
    (hf : ∀ w, (f w).id = w.id) :
    (l.map f).find? (fun w => decide (w.id = fid)) =
      (l.find? (fun w => decide (w.id = fid))).map f := by
  induction l with
  | nil => rfl
  | cons w l ih =>
    simp only [List.map_cons, List.find?_cons, hf w]
    by_cases h : w.id = fid
    · simp [h]
    · simp [h, ih]

/-- C2: the consolidator appends every tab of every non-focused window,
in window-then-tab enumeration order, to the end of the focused window's
tab list (whose own tabs stay in place), and every other window is left
with no tabs. -/
theorem C2_consolidation (s : BrowserState) (cw : Window)
    (h : currentWindow s = some cw) :
    currentWindow (mergeAllWindows s) =
      some { cw with tabs :=
        cw.tabs ++ s.windows.flatMap (fun w => if w.id = cw.id then [] else w.tabs) } ∧
    ∀ w ∈ (mergeAllWindows s).windows, w.id ≠ cw.id → w.tabs = [] := by
  have hmerge : mergeAllWindows s =
      { s with windows := s.windows.map (fun w =>
          if w.id = cw.id then
            { w with tabs := w.tabs ++
                s.windows.flatMap (fun w2 => if w2.id = cw.id then [] else w2.tabs) }
          else { w with tabs := [] }) } := by
    unfold mergeAllWindows
    rw [h]
  constructor
  · rw [hmerge]
    unfold currentWindow
    have hid : ∀ w : Window,
        (if w.id = cw.id then
           ({ w with tabs := w.tabs ++
               s.windows.flatMap (fun w2 => if w2.id = cw.id then [] else w2.tabs) } : Window)
         else { w with tabs := [] }).id = w.id := by
      intro w
      by_cases hw : w.id = cw.id <;> simp [hw]
    rw [find_map_of_preserves_id _ _ _ hid]
    unfold currentWindow at h
    rw [h]
    simp
  · rw [hmerge]
    intro w hw hne
    rcases List.mem_map.mp hw with ⟨w0, _hw0, hfw⟩
    by_cases h0 : w0.id = cw.id
    · rw [if_pos h0] at hfw
      exact absurd (by rw [← hfw]; exact h0) hne
    · rw [if_neg h0] at hfw
      rw [← hfw]

/-- Tabs of the merge scenario. -/
def tb1 : Tab := ⟨11, urlA⟩

/-- Second tab of the merge scenario. -/
def tb2 : Tab := ⟨12, urlB⟩

/-- Third tab of the merge scenario. -/
def tb3 : Tab := ⟨13, urlC⟩

/-- Fourth tab of the merge scenario. -/
def tb4 : Tab := ⟨14, newTabUrl⟩

/-- Merge scenario: W1 focused with `[t1, t2]`, W2 with `[t3, t4]`. -/
def mergeScenario : BrowserState := ⟨[⟨1, [tb1, tb2]⟩, ⟨2, [tb3, tb4]⟩], 1⟩

/-- Witness for C2 at the merge scenario: W1 ends with
`[t1, t2, t3, t4]` in order and W2 is left empty. -/
theorem C2_witness :
    currentWindow (mergeAllWindows mergeScenario) = some ⟨1, [tb1, tb2, tb3, tb4]⟩ ∧
    ∀ w ∈ (mergeAllWindows mergeScenario).windows, w.id ≠ 2 → w.id ≠ 1 → w.tabs = [] := by
  have h := C2_consolidation mergeScenario ⟨1, [tb1, tb2]⟩ (by decide)
  exact ⟨h.1.trans (by decide), fun w hw _ hne => h.2 w hw hne⟩

/-! Theorems about the blank-tab special case (claim C4). -/

/-- C4: when the snapshot holds exactly one window, every tab of which is
blank, the special case fires (so the general scan is skipped), and all
but the first blank tab are removed — the window keeps `take 1` of its
tabs. -/
theorem C4_blank_collapse (s : BrowserState) (w : Window)
    (hw : s.windows = [w])
    (hblank : ∀ t ∈ w.tabs, t.url = newTabUrl)
    (hnd : (w.tabs.map (fun t => t.id)).Nodup) :
    specialCond s ∧
    removeDuplicateTabs s = specialRemoval s ∧
    (removeDuplicateTabs s).windows = [{ w with tabs := w.tabs.take 1 }] := by
  obtain ⟨swins, sfid⟩ := s
  obtain ⟨wid, wtabs⟩ := w
  change swins = _ at hw
  subst hw
  have hall : allTabsOf ⟨[⟨wid, wtabs⟩], sfid⟩ = wtabs := by
    unfold allTabsOf
    simp
  have hnew : newTabTabsOf ⟨[⟨wid, wtabs⟩], sfid⟩ = wtabs := by
    unfold newTabTabsOf
    rw [hall, List.filter_eq_self]
    intro t ht
    simp [hblank t ht]
  have hcond : specialCond ⟨[⟨wid, wtabs⟩], sfid⟩ := by
    unfold specialCond
    rw [hall, hnew]
    exact ⟨rfl, rfl⟩
  have hrun : removeDuplicateTabs ⟨[⟨wid, wtabs⟩], sfid⟩ =
      specialRemoval ⟨[⟨wid, wtabs⟩], sfid⟩ := by
    unfold removeDuplicateTabs
    rw [if_pos hcond]
  refine ⟨hcond, hrun, ?_⟩
  rw [hrun]
  unfold specialRemoval
  rw [hnew]
  cases wtabs with
  | nil => simp
  | cons t rest =>
    cases rest with
    | nil => simp
    | cons r rest2 =>
      simp only [List.drop_succ_cons, List.drop_zero, List.map_cons, List.length_cons,
        Nat.zero_lt_succ, if_true]
      unfold removeTabIds
      simp only [List.map_cons, List.map_nil]
      have hhead : t.id ∉ r.id :: rest2.map (fun t => t.id) := by
        have h2 := List.nodup_cons.mp hnd
        simpa using h2.1
      have hrest : (r :: rest2).filter
          (fun x => decide (x.id ∉ r.id :: rest2.map (fun t => t.id))) = [] := by
        rw [List.filter_eq_nil_iff]
        intro x hx
        have hmem : x.id ∈ r.id :: rest2.map (fun t => t.id) := by
          simpa using List.mem_map.mpr ⟨x, hx, rfl⟩
        simp [hmem]
      have htake : (t :: r :: rest2).filter
          (fun x => decide (x.id ∉ r.id :: rest2.map (fun t => t.id))) =
          (t :: r :: rest2).take 1 := by
        rw [List.filter_cons, if_pos (by simpa using hhead), hrest]
        rfl
      rw [htake]

/-- Single window of five blank tabs. -/
def blankFive : BrowserState :=
  ⟨[⟨1, [⟨1, newTabUrl⟩, ⟨2, newTabUrl⟩, ⟨3, newTabUrl⟩, ⟨4, newTabUrl⟩, ⟨5, newTabUrl⟩]⟩], 1⟩

/-- Witness for C4 at a window of five blank tabs: the special case
fires and exactly one tab remains. -/
theorem C4_witness :
    (specialCond blankFive ∧
      removeDuplicateTabs blankFive = specialRemoval blankFive ∧
      (removeDuplicateTabs blankFive).windows =
        [⟨1, [⟨1, newTabUrl⟩]⟩]) ∧
    (removeDuplicateTabs blankFive).windows.map (fun w => w.tabs.length) = [1] := by
  have h := C4_blank_collapse blankFive
    ⟨1, [⟨1, newTabUrl⟩, ⟨2, newTabUrl⟩, ⟨3, newTabUrl⟩, ⟨4, newTabUrl⟩, ⟨5, newTabUrl⟩]⟩
    rfl (by decide) (by decide)
  exact ⟨⟨h.1, h.2.1, h.2.2.trans (by decide)⟩, by decide⟩

/-! Theorems about the Domain Grouper's final state (claim C5). -/

/-- Tab ids of all buckets in order. -/
def flattenBuckets (bs : List (List Char × List Nat)) : List Nat :=
  bs.flatMap (fun p => p.2)

/-- Groups the per-bucket loop creates (with their titles) when no host
call fails, starting from fresh id `n`. -/
def newGroups : Nat → List (List Char × List Nat) → List (Nat × Option (List Char))
  | _, [] => []
  | n, (k, tids) :: rest =>
    if 1 < tids.length then (n, some k) :: newGroups (n + 1) rest
    else newGroups n rest

/-- Tab-to-group assignments the per-bucket loop creates when no host
call fails, starting from fresh id `n`. -/
def newAssigns : Nat → List (List Char × List Nat) → List (Nat × Nat)
  | _, [] => []
  | n, (_k, tids) :: rest =>
    if 1 < tids.length then tids.map (fun t => (t, n)) ++ newAssigns (n + 1) rest
    else newAssigns n rest

/-- Per-bucket loop on the success path, as a pure state transformation. -/
def pureApply : GroupState → Nat → List (List Char × List Nat) → GroupState
  | gs, _, [] => gs
  | gs, n, (k, tids) :: rest =>
    if 1 < tids.length then
      pureApply (tabGroupsUpdate (tabsGroup gs tids n) n k) (n + 1) rest
    else
      pureApply (tabsUngroup gs tids) n rest

/-- With no failing host call, `processBuckets` succeeds with the pure
state transformation. -/
theorem processBuckets_noFail :
    ∀ (bs : List (List Char × List Nat)) (gs : GroupState) (n : Nat),
      processBuckets noFailGH gs n bs = Except.ok (pureApply gs n bs) := by
  intro bs
  induction bs with
  | nil => intro gs n; rfl
  | cons b rest ih =>
    intro gs n
    obtain ⟨k, tids⟩ := b
    unfold processBuckets pureApply
    by_cases h : 1 < tids.length
    · simp only [if_pos h, noFailGH, Bool.false_eq_true, if_false]
      exact ih _ _
    · simp only [if_neg h, noFailGH, Bool.false_eq_true, if_false]
      exact ih _ _

/-- Value a key holds after one `addBucket` insertion. -/
theorem addBucket_get (acc : List (List Char × List Nat)) (k : List Char) (tid : Nat) :
    ∀ k2, bucketGet (addBucket acc k tid) k2 =
      bucketGet acc k2 ++ (if k = k2 then [tid] else []) := by
  induction acc with
  | nil =>
    intro k2
    by_cases h : k = k2
    · simp [addBucket, bucketGet, List.find?_cons, h]
    · simp [addBucket, bucketGet, List.find?_cons, h]
  | cons b rest ih =>
    intro k2
    obtain ⟨k', tids⟩ := b
    unfold addBucket
    by_cases h1 : k' = k
    · rw [if_pos h1]
      by_cases h2 : k' = k2
      · have hk : k = k2 := h1 ▸ h2
        simp [bucketGet, List.find?_cons, h2, hk]
      · have hk : ¬ k = k2 := fun hx => h2 (h1.trans hx)
        simp [bucketGet, List.find?_cons, h2, hk]
    · rw [if_neg h1]
      by_cases h2 : k' = k2
      · have hk : ¬ k = k2 := fun hx => h1 (h2.trans hx.symm)
        simp [bucketGet, List.find?_cons, h2, hk]
      · simp only [bucketGet, List.find?_cons, decide_eq_true_eq, h2, if_false]
        have := ih k2
        simpa [bucketGet] using this

/-- Content of each bucket: the ids of the tabs carrying that key, in
scan order. -/
theorem bucketsOf_get :
    ∀ (ts : List Tab) (acc bs : List (List Char × List Nat)),
      bucketsOf acc ts = Except.ok bs →
      ∀ k, bucketGet bs k =
        bucketGet acc k ++ (ts.filter (fun t => decide (tabKey t = Except.ok k))).map (fun t => t.id) := by
  intro ts
  induction ts with
  | nil =>
    intro acc bs h k
    unfold bucketsOf at h
    simp only [Except.ok.injEq] at h
    subst h
    simp
  | cons t ts ih =>
    intro acc bs h k
    unfold bucketsOf at h
    cases hk : tabKey t with
    | error e => rw [hk] at h; exact absurd h (by simp)
    | ok k' =>
      rw [hk] at h
      have hrec := ih (addBucket acc k' t.id) bs h k
      rw [hrec, addBucket_get]
      by_cases hkk : k' = k
      · subst hkk
        rw [List.filter_cons]
        simp [hk]
      · rw [List.filter_cons]
        simp [hk, hkk]

/-- Occurrence counts in the flattened bucket map after one insertion. -/
theorem addBucket_flatten_count (k : List Char) (tid : Nat) :
    ∀ (acc : List (List Char × List Nat)) (x : Nat),
      (flattenBuckets (addBucket acc k tid)).count x =
        (flattenBuckets acc).count x + (if tid = x then 1 else 0) := by
  intro acc
  induction acc with
  | nil =>
    intro x
    by_cases h : tid = x <;> simp [addBucket, flattenBuckets, h, List.count_cons]
  | cons b rest ih =>
    intro x
    obtain ⟨k', tids⟩ := b
    unfold addBucket
    by_cases h1 : k' = k
    · rw [if_pos h1]
      simp only [flattenBuckets, List.flatMap_cons, List.count_append]
      by_cases h : tid = x
      · simp only [h, if_pos rfl]
        simp [List.count_cons]
        omega
      · simp only [if_neg h]
        simp [List.count_cons, h]
    · rw [if_neg h1]
      simp only [flattenBuckets, List.flatMap_cons, List.count_append]
      have := ih x
      simp only [flattenBuckets] at this
      omega

/-- Occurrence counts in the flattened bucket map of a tab list. -/
theorem bucketsOf_count :
    ∀ (ts : List Tab) (acc bs : List (List Char × List Nat)),
      bucketsOf acc ts = Except.ok bs →
      ∀ x, (flattenBuckets bs).count x =
        (flattenBuckets acc).count x + (ts.map (fun t => t.id)).count x := by
  intro ts
  induction ts with
  | nil =>
    intro acc bs h x
    unfold bucketsOf at h
    simp only [Except.ok.injEq] at h
    subst h
    simp
  | cons t ts ih =>
    intro acc bs h x
    unfold bucketsOf at h
    cases hk : tabKey t with
    | error e => rw [hk] at h; exact absurd h (by simp)
    | ok k' =>
      rw [hk] at h
      have hrec := ih (addBucket acc k' t.id) bs h x
      rw [hrec, addBucket_flatten_count]
      have hcount : List.count x (List.map (fun t => t.id) (t :: ts)) =
          List.count x (List.map (fun t => t.id) ts) + (if t.id = x then 1 else 0) := by
        by_cases hx : t.id = x
        · simp [List.count_cons, hx]
        · have hx2 : ¬ x = t.id := fun hx2 => hx hx2.symm
          simp [List.count_cons, hx, hx2]
      rw [hcount]
      omega

/-- With distinct tab ids the flattened bucket map has no duplicate id. -/
theorem bucketsOf_nodup (ts : List Tab) (bs : List (List Char × List Nat))
    (h : bucketsOf [] ts = Except.ok bs)
    (hnd : (ts.map (fun t => t.id)).Nodup) :
    (flattenBuckets bs).Nodup := by
  rw [List.nodup_iff_count_le_one]
  intro x
  have hc := bucketsOf_count ts [] bs h x
  have h1 : (flattenBuckets ([] : List (List Char × List Nat))).count x = 0 := by
    simp [flattenBuckets]
  rw [hc, h1]
  have := List.nodup_iff_count_le_one.mp hnd x
  omega

/-- Non-empty bucket values are buckets of the map. -/
theorem bucketGet_mem (bs : List (List Char × List Nat)) (k : List Char)
    (h : bucketGet bs k ≠ []) : (k, bucketGet bs k) ∈ bs := by
  unfold bucketGet at h ⊢
  cases hf : bs.find? (fun p => decide (p.1 = k)) with
  | none => rw [hf] at h; exact absurd rfl h
  | some p =>
    have hmem := List.mem_of_find?_eq_some hf
    have hkey : p.1 = k := by
      have := List.find?_some hf
      simpa using this
    have hp : ((k, p.2) : List Char × List Nat) = p := by
      rw [← hkey]
    have hgoal : ((k, p.2) : List Char × List Nat) ∈ bs := by
      rw [hp]
      exact hmem
    exact hgoal

/-- Mapping that fixes every element of a list is the identity on it. -/
theorem map_eq_self_of_fix {α : Type} (l : List α) (f : α → α) (h : ∀ a ∈ l, f a = a) :
    l.map f = l := by
  induction l with
  | nil => rfl
  | cons a l ih =>
    rw [List.map_cons, h a (by simp), ih (fun x hx => h x (by simp [hx]))]

/-- Groups after the success-path loop: the initial ones followed by one
titled group per multi-tab bucket. -/
theorem pureApply_groups :
    ∀ (bs : List (List Char × List Nat)) (gs : GroupState) (n : Nat),
      (∀ p ∈ gs.groups, p.1 < n) →
      (pureApply gs n bs).groups = gs.groups ++ newGroups n bs := by
  intro bs
  induction bs with
  | nil => intro gs n _; simp [pureApply, newGroups]
  | cons b rest ih =>
    intro gs n hlt
    obtain ⟨k, tids⟩ := b
    unfold pureApply newGroups
    by_cases h : 1 < tids.length
    · rw [if_pos h, if_pos h]
      have hgs1 : (tabGroupsUpdate (tabsGroup gs tids n) n k).groups =
          gs.groups ++ [(n, some k)] := by
        unfold tabGroupsUpdate tabsGroup
        simp only [List.map_append]
        rw [map_eq_self_of_fix gs.groups _ (fun p hp => by
          rw [if_neg (Nat.ne_of_lt (hlt p hp))])]
        simp
      rw [ih (tabGroupsUpdate (tabsGroup gs tids n) n k) (n + 1) (by
        rw [hgs1]
        intro p hp
        rcases List.mem_append.mp hp with hp1 | hp1
        · exact Nat.lt_succ_of_lt (hlt p hp1)
        · have : p = (n, some k) := by simpa using hp1
          rw [this]
          exact Nat.lt_succ_self n)]
      rw [hgs1, List.append_assoc]
      rfl
    · rw [if_neg h, if_neg h]
      exact ih (tabsUngroup gs tids) n hlt

/-- Two successive not-in filters collapse into one over the appended
exclusion lists. -/
theorem filter_notmem_append (l : List (Nat × Nat)) (xs ys : List Nat) :
    (l.filter (fun p => decide (p.1 ∉ xs))).filter (fun p => decide (p.1 ∉ ys)) =
      l.filter (fun p => decide (p.1 ∉ xs ++ ys)) := by
  rw [List.filter_filter]
  apply List.filter_congr
  intro p _
  by_cases hx : p.1 ∈ xs
  · simp [hx]
  · by_cases hy : p.1 ∈ ys
    · simp [hx, hy]
    · simp [hx, hy]

/-- Assignments after the success-path loop: the initial ones minus every
tab of a bucket, followed by the new per-bucket assignments. -/
theorem pureApply_assigns :
    ∀ (bs : List (List Char × List Nat)) (gs : GroupState) (n : Nat),
      (flattenBuckets bs).Nodup →
      (pureApply gs n bs).tabAssign =
        gs.tabAssign.filter (fun p => decide (p.1 ∉ flattenBuckets bs)) ++ newAssigns n bs := by
  intro bs
  induction bs with
  | nil =>
    intro gs n _
    simp [pureApply, newAssigns, flattenBuckets]
  | cons b rest ih =>
    intro gs n hnd
    obtain ⟨k, tids⟩ := b
    have hflat : flattenBuckets ((k, tids) :: rest) = tids ++ flattenBuckets rest := by
      simp [flattenBuckets]
    rw [hflat] at hnd
    rcases List.nodup_append.mp hnd with ⟨htnd, hrnd, hdisj⟩
    unfold pureApply newAssigns
    by_cases h : 1 < tids.length
    · rw [if_pos h, if_pos h]
      rw [ih (tabGroupsUpdate (tabsGroup gs tids n) n k) (n + 1) hrnd]
      have hasg : (tabGroupsUpdate (tabsGroup gs tids n) n k).tabAssign =
          gs.tabAssign.filter (fun p => decide (p.1 ∉ tids)) ++ tids.map (fun t => (t, n)) := by
        rfl
      rw [hasg, List.filter_append, filter_notmem_append]
      have hkeep : (tids.map (fun t => (t, n))).filter
          (fun p => decide (p.1 ∉ flattenBuckets rest)) = tids.map (fun t => (t, n)) := by
        rw [List.filter_eq_self]
        intro p hp
        rcases List.mem_map.mp hp with ⟨t, ht, hpt⟩
        have : p.1 = t := by rw [← hpt]
        rw [this]
        simp only [decide_eq_true_eq]
        exact fun hmem => hdisj ht hmem
      rw [hkeep, hflat, List.append_assoc]
    · rw [if_neg h, if_neg h]
      rw [ih (tabsUngroup gs tids) n hrnd]
      have hasg : (tabsUngroup gs tids).tabAssign =
          gs.tabAssign.filter (fun p => decide (p.1 ∉ tids)) := by
        rfl
      rw [hasg, filter_notmem_append, hflat]

/-- Group ids assigned by the loop start at the fresh counter. -/
theorem newAssigns_ge :
    ∀ (bs : List (List Char × List Nat)) (n : Nat), ∀ p ∈ newAssigns n bs, n ≤ p.2 := by
  intro bs
  induction bs with
  | nil => intro n p hp; simp [newAssigns] at hp
  | cons b rest ih =>
    intro n p hp
    obtain ⟨k, tids⟩ := b
    unfold newAssigns at hp
    by_cases h : 1 < tids.length
    · rw [if_pos h] at hp
      rcases List.mem_append.mp hp with hp1 | hp1
      · rcases List.mem_map.mp hp1 with ⟨t, _ht, hpt⟩
        rw [← hpt]
      · exact Nat.le_of_succ_le (ih (n + 1) p hp1)
    · rw [if_neg h] at hp
      exact ih n p hp

/-- Group ids created by the loop start at the fresh counter. -/
theorem newGroups_ge :
    ∀ (bs : List (List Char × List Nat)) (n : Nat), ∀ p ∈ newGroups n bs, n ≤ p.1 := by
  intro bs
  induction bs with
  | nil => intro n p hp; simp [newGroups] at hp
  | cons b rest ih =>
    intro n p hp
    obtain ⟨k, tids⟩ := b
    unfold newGroups at hp
    by_cases h : 1 < tids.length
    · rw [if_pos h] at hp
      rcases List.mem_cons.mp hp with hp1 | hp1
      · rw [hp1]
      · exact Nat.le_of_succ_le (ih (n + 1) p hp1)
    · rw [if_neg h] at hp
      exact ih n p hp

/-- Tab ids assigned by the loop come from the buckets. -/
theorem newAssigns_fst_mem :
    ∀ (bs : List (List Char × List Nat)) (n : Nat),
      ∀ p ∈ newAssigns n bs, p.1 ∈ flattenBuckets bs := by
  intro bs
  induction bs with
  | nil => intro n p hp; simp [newAssigns] at hp
  | cons b rest ih =>
    intro n p hp
    obtain ⟨k, tids⟩ := b
    have hflat : flattenBuckets ((k, tids) :: rest) = tids ++ flattenBuckets rest := by
      simp [flattenBuckets]
    rw [hflat]
    unfold newAssigns at hp
    by_cases h : 1 < tids.length
    · rw [if_pos h] at hp
      rcases List.mem_append.mp hp with hp1 | hp1
      · rcases List.mem_map.mp hp1 with ⟨t, ht, hpt⟩
        exact List.mem_append_left _ (by rw [← hpt]; exact ht)
      · exact List.mem_append_right _ (ih (n + 1) p hp1)
    · rw [if_neg h] at hp
      exact List.mem_append_right _ (ih n p hp)

/-- New assignments filtered to one bucket's fresh group id are exactly
that bucket's tabs. -/
theorem bucket_group_members :
    ∀ (bs : List (List Char × List Nat)) (n : Nat) (k : List Char) (tids : List Nat),
      (k, tids) ∈ bs → 1 < tids.length →
      ∃ gid, n ≤ gid ∧ (gid, some k) ∈ newGroups n bs ∧
        (newAssigns n bs).filter (fun p => decide (p.2 = gid)) =
          tids.map (fun t => (t, gid)) := by
  intro bs
  induction bs with
  | nil => intro n k tids hmem _; simp at hmem
  | cons b rest ih =>
    intro n k tids hmem hlen
    obtain ⟨k', tids'⟩ := b
    rcases List.mem_cons.mp hmem with hhead | htail
    · have hk : k = k' := congrArg Prod.fst hhead
      have ht : tids = tids' := congrArg Prod.snd hhead
      subst hk
      subst ht
      refine ⟨n, le_refl n, ?_, ?_⟩
      · unfold newGroups
        rw [if_pos hlen]
        exact List.mem_cons_self _ _
      · unfold newAssigns
        rw [if_pos hlen, List.filter_append]
        have h1 : (tids.map (fun t => (t, n))).filter
            (fun p => decide (p.2 = n)) = tids.map (fun t => (t, n)) := by
          rw [List.filter_eq_self]
          intro p hp
          rcases List.mem_map.mp hp with ⟨t, _ht, hpt⟩
          rw [← hpt]
          simp
        have h2 : (newAssigns (n + 1) rest).filter
            (fun p => decide (p.2 = n)) = [] := by
          rw [List.filter_eq_nil_iff]
          intro p hp
          have := newAssigns_ge rest (n + 1) p hp
          simp only [decide_eq_true_eq]
          omega
        rw [h1, h2, List.append_nil]
    · by_cases h : 1 < tids'.length
      · rcases ih (n + 1) k tids htail hlen with ⟨gid, hge, hmemG, hfilt⟩
        refine ⟨gid, by omega, ?_, ?_⟩
        · unfold newGroups
          rw [if_pos h]
          exact List.mem_cons_of_mem _ hmemG
        · unfold newAssigns
          rw [if_pos h, List.filter_append]
          have h1 : (tids'.map (fun t => (t, n))).filter
              (fun p => decide (p.2 = gid)) = [] := by
            rw [List.filter_eq_nil_iff]
            intro p hp
            rcases List.mem_map.mp hp with ⟨t, _ht, hpt⟩
            rw [← hpt]
            simp only [decide_eq_true_eq]
            omega
          rw [h1, hfilt, List.nil_append]
      · rcases ih n k tids htail hlen with ⟨gid, hge, hmemG, hfilt⟩
        refine ⟨gid, hge, ?_, ?_⟩
        · unfold newGroups
          rw [if_neg h]
          exact hmemG
        · unfold newAssigns
          rw [if_neg h]
          exact hfilt

/-- Every group created by the loop comes from a multi-tab bucket, is
titled with that bucket's key, and holds exactly that bucket's tabs. -/
theorem newGroups_members :
    ∀ (bs : List (List Char × List Nat)) (n gid : Nat) (title : Option (List Char)),
      (gid, title) ∈ newGroups n bs →
      ∃ k tids, title = some k ∧ (k, tids) ∈ bs ∧ 1 < tids.length ∧
        (newAssigns n bs).filter (fun p => decide (p.2 = gid)) =
          tids.map (fun t => (t, gid)) := by
  intro bs
  induction bs with
  | nil => intro n gid title hmem; simp [newGroups] at hmem
  | cons b rest ih =>
    intro n gid title hmem
    obtain ⟨k', tids'⟩ := b
    unfold newGroups at hmem
    by_cases h : 1 < tids'.length
    · rw [if_pos h] at hmem
      rcases List.mem_cons.mp hmem with hhead | htail
      · have hgid : gid = n := congrArg Prod.fst hhead
        have htitle : title = some k' := congrArg Prod.snd hhead
        subst hgid
        refine ⟨k', tids', htitle, List.mem_cons_self _ _, h, ?_⟩
        unfold newAssigns
        rw [if_pos h, List.filter_append]
        have h1 : (tids'.map (fun t => (t, gid))).filter
            (fun p => decide (p.2 = gid)) = tids'.map (fun t => (t, gid)) := by
          rw [List.filter_eq_self]
          intro p hp
          rcases List.mem_map.mp hp with ⟨t, _ht, hpt⟩
          rw [← hpt]
          simp
        have h2 : (newAssigns (gid + 1) rest).filter
            (fun p => decide (p.2 = gid)) = [] := by
          rw [List.filter_eq_nil_iff]
          intro p hp
          have := newAssigns_ge rest (gid + 1) p hp
          simp only [decide_eq_true_eq]
          omega
        rw [h1, h2, List.append_nil]
      · have hge : n + 1 ≤ gid := by
          have := newGroups_ge rest (n + 1) (gid, title) htail
          simpa using this
        rcases ih (n + 1) gid title htail with ⟨k, tids, htitle, hbmem, hlen, hfilt⟩
        refine ⟨k, tids, htitle, List.mem_cons_of_mem _ hbmem, hlen, ?_⟩
        unfold newAssigns
        rw [if_pos h, List.filter_append]
        have h1 : (tids'.map (fun t => (t, n))).filter
            (fun p => decide (p.2 = gid)) = [] := by
          rw [List.filter_eq_nil_iff]
          intro p hp
          rcases List.mem_map.mp hp with ⟨t, _ht, hpt⟩
          rw [← hpt]
          simp only [decide_eq_true_eq]
          omega
        rw [h1, hfilt, List.nil_append]
    · rw [if_neg h] at hmem
      rcases ih n gid title hmem with ⟨k, tids, htitle, hbmem, hlen, hfilt⟩
      refine ⟨k, tids, htitle, List.mem_cons_of_mem _ hbmem, hlen, ?_⟩
      unfold newAssigns
      rw [if_neg h]
      exact hfilt

/-- Tab of a singleton bucket is assigned to no group by the loop. -/
theorem newAssigns_ne_singleton :
    ∀ (bs : List (List Char × List Nat)) (n : Nat) (k : List Char) (tid : Nat),
      (flattenBuckets bs).Nodup → (k, [tid]) ∈ bs →
      ∀ p ∈ newAssigns n bs, p.1 ≠ tid := by
  intro bs
  induction bs with
  | nil => intro n k tid _ hmem; simp at hmem
  | cons b rest ih =>
    intro n k tid hnd hmem p hp
    obtain ⟨k', tids'⟩ := b
    have hflat : flattenBuckets ((k', tids') :: rest) = tids' ++ flattenBuckets rest := by
      simp [flattenBuckets]
    rw [hflat] at hnd
    rcases List.nodup_append.mp hnd with ⟨_htnd, hrnd, hdisj⟩
    rcases List.mem_cons.mp hmem with hhead | htail
    · have ht : tids' = [tid] := (congrArg Prod.snd hhead).symm
      subst ht
      unfold newAssigns at hp
      rw [if_neg (by simp)] at hp
      have hp1 := newAssigns_fst_mem rest n p hp
      intro hx
      exact hdisj (by simp) (hx ▸ hp1)
    · have htid : tid ∈ flattenBuckets rest := by
        unfold flattenBuckets
        exact List.mem_flatMap.mpr ⟨(k, [tid]), htail, by simp⟩
      unfold newAssigns at hp
      by_cases h : 1 < tids'.length
      · rw [if_pos h] at hp
        rcases List.mem_append.mp hp with hp1 | hp1
        · rcases List.mem_map.mp hp1 with ⟨t, ht, hpt⟩
          have hpt1 : p.1 = t := by rw [← hpt]
          rw [hpt1]
          intro hx
          exact hdisj (hx ▸ ht) htid
        · exact ih (n + 1) k tid hrnd htail p hp1
      · rw [if_neg h] at hp
        exact ih n k tid hrnd htail p hp

/-- C5: after the Domain Grouper completes on the focused window with no
host failure (fresh group ids from `n0`, no pre-existing groups, any
pre-existing tab assignments with stale group ids), for every domain
label: a label carried by two or more tabs has a group titled with it
holding exactly those tab ids in scan order; a label carried by exactly
one tab leaves that tab in no group; and every group holds at least two
tabs. -/
theorem C5_grouping_invariant (s : BrowserState) (w : Window)
    (bs : List (List Char × List Nat)) (a0 : List (Nat × Nat)) (n0 : Nat) (gfinal : GroupState)
    (hcur : currentWindow s = some w)
    (hbs : bucketsOf [] w.tabs = Except.ok bs)
    (hnd : (w.tabs.map (fun t => t.id)).Nodup)
    (hfresh : ∀ p ∈ a0, p.2 < n0)
    (hrun : groupTabsByDomain s ⟨[], a0⟩ n0 noFailGH = Except.ok gfinal) :
    (∀ k, 2 ≤ ((w.tabs.filter (fun t => decide (tabKey t = Except.ok k))).map (fun t => t.id)).length →
      ∃ gid, (gid, some k) ∈ gfinal.groups ∧
        (gfinal.tabAssign.filter (fun p => decide (p.2 = gid))).map (fun p => p.1) =
          (w.tabs.filter (fun t => decide (tabKey t = Except.ok k))).map (fun t => t.id)) ∧
    (∀ k tid,
      (w.tabs.filter (fun t => decide (tabKey t = Except.ok k))).map (fun t => t.id) = [tid] →
      ∀ p ∈ gfinal.tabAssign, p.1 ≠ tid) ∧
    (∀ gid title, (gid, title) ∈ gfinal.groups →
      2 ≤ (gfinal.tabAssign.filter (fun p => decide (p.2 = gid))).length) := by
  have hinner : groupInner s ⟨[], a0⟩ n0 noFailGH =
      Except.ok (pureApply ⟨[], a0⟩ n0 bs) := by
    have hcf : noFailGH.getCurrentFails = false := rfl
    simp only [groupInner, hcf, Bool.false_eq_true, if_false, hcur, hbs,
      processBuckets_noFail]
  unfold groupTabsByDomain at hrun
  rw [hinner] at hrun
  simp only [Except.ok.injEq] at hrun
  subst hrun
  have hndf : (flattenBuckets bs).Nodup := bucketsOf_nodup w.tabs bs hbs hnd
  have hgroups : (pureApply ⟨[], a0⟩ n0 bs).groups = newGroups n0 bs := by
    rw [pureApply_groups bs ⟨[], a0⟩ n0 (by intro p hp; simp at hp)]
    rfl
  have hassign : (pureApply ⟨[], a0⟩ n0 bs).tabAssign =
      a0.filter (fun p => decide (p.1 ∉ flattenBuckets bs)) ++ newAssigns n0 bs :=
    pureApply_assigns bs ⟨[], a0⟩ n0 hndf
  have hget : ∀ k, bucketGet bs k =
      (w.tabs.filter (fun t => decide (tabKey t = Except.ok k))).map (fun t => t.id) := by
    intro k
    have h := bucketsOf_get w.tabs [] bs hbs k
    simpa [bucketGet] using h
  have hstale : ∀ gid, n0 ≤ gid →
      (a0.filter (fun p => decide (p.1 ∉ flattenBuckets bs))).filter
        (fun p => decide (p.2 = gid)) = [] := by
    intro gid hge
    rw [List.filter_eq_nil_iff]
    intro p hp
    have hpa := List.mem_of_mem_filter hp
    have := hfresh p hpa
    simp only [decide_eq_true_eq]
    omega
  refine ⟨?_, ?_, ?_⟩
  · intro k hk2
    have hbk : (k, bucketGet bs k) ∈ bs := bucketGet_mem bs k (by
      rw [hget k]
      intro hnil
      rw [hnil] at hk2
      simp at hk2)
    rw [hget k] at hbk
    rcases bucket_group_members bs n0 k _ hbk (by omega) with ⟨gid, hge, hmemG, hfilt⟩
    refine ⟨gid, by rw [hgroups]; exact hmemG, ?_⟩
    rw [hassign, List.filter_append, hstale gid hge, List.nil_append, hfilt]
    simp
  · intro k tid hone p hp
    have hbk : (k, bucketGet bs k) ∈ bs := bucketGet_mem bs k (by
      rw [hget k, hone]
      simp)
    rw [hget k, hone] at hbk
    rw [hassign] at hp
    rcases List.mem_append.mp hp with hp1 | hp1
    · have hnm := List.of_mem_filter hp1
      simp only [decide_eq_true_eq] at hnm
      intro hx
      apply hnm
      rw [hx]
      exact List.mem_flatMap.mpr ⟨(k, [tid]), hbk, by simp⟩
    · exact newAssigns_ne_singleton bs n0 k tid hndf hbk p hp1
  · intro gid title hmem
    rw [hgroups] at hmem
    have hge : n0 ≤ gid := by
      have := newGroups_ge bs n0 (gid, title) hmem
      simpa using this
    rcases newGroups_members bs n0 gid title hmem with ⟨k, tids, _htitle, _hbmem, hlen, hfilt⟩
    rw [hassign, List.filter_append, hstale gid hge, List.nil_append, hfilt]
    simpa using hlen

/-- Focused window of the grouping scenario: two tabs on the `Example`
domain, one on the `Other` domain. -/
def groupWindow : Window :=
  ⟨1, [⟨1, urlA⟩, ⟨2, JsVal.str "https://x.example.com/"⟩, ⟨3, JsVal.str "https://other.net/"⟩]⟩

/-- Snapshot holding only `groupWindow`, focused. -/
def groupScenario : BrowserState := ⟨[groupWindow], 1⟩

/-- Witness for C5 at a concrete run (tab 3 starts in a stale group 7):
the two `Example` tabs end in a group titled `Example` holding exactly
ids `[1, 2]`, and the singleton `Other` tab 3 ends in no group. -/
theorem C5_witness :
    (∃ gid, (gid, some "Example".data) ∈
        (⟨[(10, some "Example".data)], [(1, 10), (2, 10)]⟩ : GroupState).groups ∧
      ((⟨[(10, some "Example".data)], [(1, 10), (2, 10)]⟩ : GroupState).tabAssign.filter
          (fun p => decide (p.2 = gid))).map (fun p => p.1) =
        (groupWindow.tabs.filter
          (fun t => decide (tabKey t = Except.ok "Example".data))).map (fun t => t.id)) ∧
    (∀ p ∈ (⟨[(10, some "Example".data)], [(1, 10), (2, 10)]⟩ : GroupState).tabAssign,
      p.1 ≠ 3) := by
  have h := C5_grouping_invariant groupScenario groupWindow
    [("Example".data, [1, 2]), ("Other".data, [3])] [(3, 7)] 10
    ⟨[(10, some "Example".data)], [(1, 10), (2, 10)]⟩
    (by decide) (by decide) (by decide) (by decide) (by decide)
  exact ⟨h.1 "Example".data (by decide), h.2.1 "Other".data 3 (by decide)⟩

/-! Theorems about idempotence of the Duplicate Remover (claim C6). -/

/-- Scan of a list whose URLs are pairwise distinct, unseen, and never
the blank sentinel in a multi-tab window marks nothing. -/
theorem scanDups_nil_of_clean :
    ∀ (n : Nat) (l : List Tab) (seen : List JsVal),
      l.Pairwise (fun a b => a.url ≠ b.url) →
      (∀ t ∈ l, t.url ∉ seen) →
      (∀ t ∈ l, ¬(t.url = newTabUrl ∧ 1 < n)) →
      scanDups n l seen = [] := by
  intro n l
  induction l with
  | nil => intro seen _ _ _; rfl
  | cons t ts ih =>
    intro seen hpair hseen hblank
    unfold scanDups
    rw [if_neg (by
      rintro (h | h)
      · exact hseen t (List.mem_cons_self _ _) h
      · exact hblank t (List.mem_cons_self _ _) h)]
    apply ih
    · exact (List.pairwise_cons.mp hpair).2
    · intro x hx
      intro hmem
      rcases List.mem_cons.mp hmem with h1 | h1
      · exact (List.pairwise_cons.mp hpair).1 x hx h1.symm
      · exact hseen x (List.mem_cons_of_mem _ hx) h1
    · intro x hx
      exact hblank x (List.mem_cons_of_mem _ hx)

/-- Blank tabs are always marked when the window has more than one tab. -/
theorem mem_scanDups_of_blank :
    ∀ (n : Nat) (l : List Tab) (seen : List JsVal) (t : Tab),
      t ∈ l → t.url = newTabUrl → 1 < n → t.id ∈ scanDups n l seen := by
  intro n l
  induction l with
  | nil => intro seen t ht; simp at ht
  | cons h ts ih =>
    intro seen t ht hurl hn
    rcases List.mem_cons.mp ht with h1 | h1
    · subst h1
      unfold scanDups
      rw [if_pos (Or.inr ⟨hurl, hn⟩)]
      exact List.mem_cons_self _ _
    · unfold scanDups
      by_cases hc : h.url ∈ seen ∨ (h.url = newTabUrl ∧ 1 < n)
      · rw [if_pos hc]
        exact List.mem_cons_of_mem _ (ih seen t h1 hurl hn)
      · rw [if_neg hc]
        exact ih (h.url :: seen) t h1 hurl hn

/-- Tabs whose URL is in the seen set are always marked. -/
theorem mem_scanDups_of_seen :
    ∀ (n : Nat) (l : List Tab) (seen : List JsVal) (t : Tab),
      t ∈ l → t.url ∈ seen → t.id ∈ scanDups n l seen := by
  intro n l
  induction l with
  | nil => intro seen t ht; simp at ht
  | cons h ts ih =>
    intro seen t ht hurl
    rcases List.mem_cons.mp ht with h1 | h1
    · subst h1
      unfold scanDups
      rw [if_pos (Or.inl hurl)]
      exact List.mem_cons_self _ _
    · unfold scanDups
      by_cases hc : h.url ∈ seen ∨ (h.url = newTabUrl ∧ 1 < n)
      · rw [if_pos hc]
        exact List.mem_cons_of_mem _ (ih seen t h1 hurl)
      · rw [if_neg hc]
        exact ih (h.url :: seen) t h1 (List.mem_cons_of_mem _ hurl)

/-- Tabs surviving the scan-and-remove carry pairwise distinct URLs. -/
theorem survivors_pairwise :
    ∀ (n : Nat) (l : List Tab) (seen : List JsVal),
      (l.filter (fun t => decide (t.id ∉ scanDups n l seen))).Pairwise
        (fun a b => a.url ≠ b.url) := by
  intro n l
  induction l with
  | nil => intro seen; simp
  | cons h ts ih =>
    intro seen
    unfold scanDups
    by_cases hc : h.url ∈ seen ∨ (h.url = newTabUrl ∧ 1 < n)
    · rw [if_pos hc]
      rw [List.filter_cons]
      rw [if_neg (by simp)]
      have hsub : List.Sublist
          (ts.filter (fun t => decide (t.id ∉ h.id :: scanDups n ts seen)))
          (ts.filter (fun t => decide (t.id ∉ scanDups n ts seen))) := by
        apply List.monotone_filter_right
        intro a ha
        simp only [decide_eq_true_eq] at ha ⊢
        intro hmem
        exact ha (List.mem_cons_of_mem _ hmem)
      exact (ih seen).sublist hsub
    · rw [if_neg hc]
      rw [List.filter_cons]
      by_cases hk : h.id ∉ scanDups n ts (h.url :: seen)
      · rw [if_pos (by simpa using hk)]
        rw [List.pairwise_cons]
        constructor
        · intro b hb
          have hbts := List.mem_of_mem_filter hb
          have hbk := List.of_mem_filter hb
          simp only [decide_eq_true_eq] at hbk
          intro hbu
          exact hbk (mem_scanDups_of_seen n ts (h.url :: seen) b hbts
            (by rw [← hbu]; exact List.mem_cons_self _ _))
        · exact ih (h.url :: seen)
      · rw [if_neg (by simpa using hk)]
        exact ih (h.url :: seen)

/-- Tabs surviving the scan-and-remove of a multi-tab window are never
blank. -/
theorem survivors_not_blank :
    ∀ (n : Nat) (l : List Tab) (seen : List JsVal), 1 < n →
      ∀ t ∈ l.filter (fun t => decide (t.id ∉ scanDups n l seen)), t.url ≠ newTabUrl := by
  intro n l seen hn t ht hurl
  have htl := List.mem_of_mem_filter ht
  have htk := List.of_mem_filter ht
  simp only [decide_eq_true_eq] at htk
  exact htk (mem_scanDups_of_blank n l seen t htl hurl hn)

/-- Windows keep their ids and the focused id is unchanged, so the
focused window after a removal is the focused window with the removed
tabs filtered out. -/
theorem currentWindow_removeTabIds (s : BrowserState) (ids : List Nat) :
    currentWindow (removeTabIds s ids) =
      (currentWindow s).map (fun w =>
        { w with tabs := w.tabs.filter (fun t => decide (t.id ∉ ids)) }) := by
  unfold currentWindow removeTabIds
  exact find_map_of_preserves_id s.windows _ s.focusedId (fun w => rfl)

/-- Deduplication of a single window of at most one tab, all blank, is a
no-op. -/
theorem rdt_single_blank_short (wid sfid : Nat) (l : List Tab)
    (hlen : l.length ≤ 1) (hbl : ∀ t ∈ l, t.url = newTabUrl) :
    removeDuplicateTabs ⟨[⟨wid, l⟩], sfid⟩ = ⟨[⟨wid, l⟩], sfid⟩ := by
  have hall : allTabsOf ⟨[⟨wid, l⟩], sfid⟩ = l := by
    unfold allTabsOf
    simp
  have hnew : newTabTabsOf ⟨[⟨wid, l⟩], sfid⟩ = l := by
    unfold newTabTabsOf
    rw [hall, List.filter_eq_self]
    intro t ht
    simp [hbl t ht]
  have hspc : specialCond ⟨[⟨wid, l⟩], sfid⟩ := by
    unfold specialCond
    rw [hall, hnew]
    exact ⟨rfl, rfl⟩
  unfold removeDuplicateTabs
  rw [if_pos hspc]
  unfold specialRemoval
  rw [hnew]
  cases l with
  | nil => simp
  | cons x xs =>
    cases xs with
    | nil => simp
    | cons y ys => simp at hlen

/-- C6: deduplication is idempotent — on every snapshot, running the
Duplicate Remover on its own result changes nothing, so two runs equal
one. -/
theorem C6_dedup_idempotent (s : BrowserState) :
    removeDuplicateTabs (removeDuplicateTabs s) = removeDuplicateTabs s := by
  by_cases spc : specialCond s
  · obtain ⟨swins, sfid⟩ := s
    rcases List.length_eq_one.mp spc.2 with ⟨w, hw⟩
    change swins = [w] at hw
    subst hw
    obtain ⟨wid, wtabs⟩ := w
    have hall : allTabsOf ⟨[⟨wid, wtabs⟩], sfid⟩ = wtabs := by
      unfold allTabsOf
      simp
    have hnew : newTabTabsOf ⟨[⟨wid, wtabs⟩], sfid⟩ = wtabs := by
      have heq : newTabTabsOf ⟨[⟨wid, wtabs⟩], sfid⟩ = allTabsOf ⟨[⟨wid, wtabs⟩], sfid⟩ := by
        unfold newTabTabsOf
        exact List.Sublist.eq_of_length (List.filter_sublist _) (by
          have h1 := spc.1
          unfold newTabTabsOf at h1
          exact h1.symm)
      exact heq.trans hall
    have hblanks : ∀ t ∈ wtabs, t.url = newTabUrl := by
      intro t ht
      have h2 := hnew
      unfold newTabTabsOf at h2
      rw [hall] at h2
      have hfe := List.filter_eq_self.mp h2 t ht
      simpa using hfe
    have hrds : removeDuplicateTabs ⟨[⟨wid, wtabs⟩], sfid⟩ =
        specialRemoval ⟨[⟨wid, wtabs⟩], sfid⟩ := by
      unfold removeDuplicateTabs
      rw [if_pos spc]
    cases wtabs with
    | nil =>
      have h1 := rdt_single_blank_short wid sfid [] (by simp) (by simp)
      rw [h1]
      exact h1
    | cons t rest =>
      cases rest with
      | nil =>
        have h1 := rdt_single_blank_short wid sfid [t] (by simp) hblanks
        rw [h1]
        exact h1
      | cons r rest2 =>
        have hsr : specialRemoval ⟨[⟨wid, t :: r :: rest2⟩], sfid⟩ =
            removeTabIds ⟨[⟨wid, t :: r :: rest2⟩], sfid⟩
              ((r :: rest2).map (fun x => x.id)) := by
          unfold specialRemoval
          rw [hnew]
          simp
        have hr1 : removeTabIds ⟨[⟨wid, t :: r :: rest2⟩], sfid⟩
            ((r :: rest2).map (fun x => x.id)) =
            ⟨[⟨wid, (t :: r :: rest2).filter
              (fun x => decide (x.id ∉ (r :: rest2).map (fun x => x.id)))⟩], sfid⟩ := by
          unfold removeTabIds
          simp
        have hfilter : (t :: r :: rest2).filter
            (fun x => decide (x.id ∉ (r :: rest2).map (fun x => x.id))) =
            if t.id ∈ (r :: rest2).map (fun x => x.id) then [] else [t] := by
          have hrest : (r :: rest2).filter
              (fun x => decide (x.id ∉ (r :: rest2).map (fun x => x.id))) = [] := by
            rw [List.filter_eq_nil_iff]
            intro x hx
            have hmem : x.id ∈ (r :: rest2).map (fun x => x.id) :=
              List.mem_map.mpr ⟨x, hx, rfl⟩
            intro hcon
            simp only [decide_eq_true_eq] at hcon
            exact hcon hmem
          rw [List.filter_cons, hrest]
          by_cases ht : t.id ∈ (r :: rest2).map (fun x => x.id)
          · rw [if_pos ht, if_neg (by
              simp only [decide_eq_true_eq]
              exact fun hcon => hcon ht)]
          · rw [if_neg ht, if_pos (by
              simp only [decide_eq_true_eq]
              exact ht)]
        rw [hrds, hsr, hr1, hfilter]
        by_cases ht : t.id ∈ (r :: rest2).map (fun x => x.id)
        · rw [if_pos ht]
          exact rdt_single_blank_short wid sfid [] (by simp) (by simp)
        · rw [if_neg ht]
          exact rdt_single_blank_short wid sfid [t] (by simp) (by
            intro x hx
            have hxt : x = t := by simpa using hx
            subst hxt
            exact hblanks x (by simp))
  · have hrds : removeDuplicateTabs s = generalRemoval s := by
      unfold removeDuplicateTabs
      rw [if_neg spc]
    cases hc : currentWindow s with
    | none =>
      have hgr : generalRemoval s = s := by
        unfold generalRemoval
        rw [hc]
      rw [hrds, hgr, hrds, hgr]
    | some w =>
      by_cases hm : generalMarks w = []
      · have hgr : generalRemoval s = s := by
          unfold generalRemoval
          rw [hc]
          simp [hm]
        rw [hrds, hgr, hrds, hgr]
      · have hpos : 0 < (generalMarks w).length := List.length_pos.mpr hm
        have hgr : generalRemoval s = removeTabIds s (generalMarks w) := by
          unfold generalRemoval
          rw [hc]
          simp [hpos]
        have hwlen : 1 < w.tabs.length := by
          by_contra hle
          push_neg at hle
          apply hm
          unfold generalMarks
          cases htw : w.tabs with
          | nil => rfl
          | cons t rest =>
            cases rest with
            | nil =>
              unfold scanDups
              rw [if_neg (by
                rintro (hx | hx)
                · simp at hx
                · simp at hx)]
              rfl
            | cons r rest2 =>
              rw [htw] at hle
              simp at hle
        have hcw1 : currentWindow (removeTabIds s (generalMarks w)) =
            some { w with tabs := w.tabs.filter (fun t => decide (t.id ∉ generalMarks w)) } := by
          rw [currentWindow_removeTabIds, hc]
          rfl
        have hm2 : generalMarks { w with
            tabs := w.tabs.filter (fun t => decide (t.id ∉ generalMarks w)) } = [] := by
          unfold generalMarks
          apply scanDups_nil_of_clean
          · exact survivors_pairwise w.tabs.length w.tabs []
          · intro t _ht
            simp
          · intro t ht hcontra
            exact survivors_not_blank w.tabs.length w.tabs [] hwlen t ht hcontra.1
        rw [hrds, hgr]
        by_cases spc1 : specialCond (removeTabIds s (generalMarks w))
        · have hlen1 : s.windows.length = 1 := by
            have h2 := spc1.2
            unfold removeTabIds at h2
            simpa using h2
          rcases List.length_eq_one.mp hlen1 with ⟨w0, hw0⟩
          have hww : w0 = w := by
            unfold currentWindow at hc
            rw [hw0] at hc
            by_cases hp : w0.id = s.focusedId
            · simp [List.find?_cons, hp] at hc
              exact hc
            · simp [List.find?_cons, hp] at hc
          subst hww
          have hallr1 : allTabsOf (removeTabIds s (generalMarks w0)) =
              w0.tabs.filter (fun t => decide (t.id ∉ generalMarks w0)) := by
            unfold allTabsOf removeTabIds
            rw [hw0]
            simp
          have hblankR : ∀ t ∈ w0.tabs.filter (fun t => decide (t.id ∉ generalMarks w0)),
              t.url = newTabUrl := by
            have heq : newTabTabsOf (removeTabIds s (generalMarks w0)) =
                allTabsOf (removeTabIds s (generalMarks w0)) := by
              unfold newTabTabsOf
              exact List.Sublist.eq_of_length (List.filter_sublist _) (by
                have h1 := spc1.1
                unfold newTabTabsOf at h1
                exact h1.symm)
            intro t ht
            have h3 := heq
            unfold newTabTabsOf at h3
            have h4 := List.filter_eq_self.mp h3 t (by rw [hallr1]; exact ht)
            simpa using h4
          have hRnil : w0.tabs.filter (fun t => decide (t.id ∉ generalMarks w0)) = [] := by
            cases hR : w0.tabs.filter (fun t => decide (t.id ∉ generalMarks w0)) with
            | nil => rfl
            | cons x xs =>
              have hx : x ∈ w0.tabs.filter (fun t => decide (t.id ∉ generalMarks w0)) := by
                rw [hR]
                exact List.mem_cons_self _ _
              exact absurd (hblankR x hx)
                (survivors_not_blank w0.tabs.length w0.tabs [] hwlen x hx)
          have hr1 : removeTabIds s (generalMarks w0) = ⟨[⟨w0.id, []⟩], s.focusedId⟩ := by
            unfold removeTabIds
            rw [hw0]
            simp only [List.map_cons, List.map_nil]
            rw [hRnil]
          rw [hr1]
          exact rdt_single_blank_short w0.id s.focusedId [] (by simp) (by simp)
        · have hgr1 : removeDuplicateTabs (removeTabIds s (generalMarks w)) =
              generalRemoval (removeTabIds s (generalMarks w)) := by
            unfold removeDuplicateTabs
            rw [if_neg spc1]
          rw [hgr1]
          unfold generalRemoval
          rw [hcw1]
          simp only [hm2]
          simp

end TabManager
